import Mathlib

/-!
Verification of the encrypted credential vault of the `password_manager`
repository (Rust sources under `src/password_manager/src/`).  The Rust code is
shallowly embedded: bytes are natural numbers, byte strings are `List Nat`,
`String` stays `String`, timestamps (`DateTime<Utc>`) are abstract `Nat`
instants threaded explicitly, fallible operations return `Except`/`Option`,
and the `&mut self` methods of the Rust code become explicit state-passing
functions.
-/

namespace PasswordManager

/-! ## Byte helpers -/

/-- XOR two byte sequences pointwise (truncating to the shorter one), the
operation counter-mode encryption applies. -/
def zipXor (xs ys : List Nat) : List Nat := List.zipWith Nat.xor xs ys

/-- Big-endian encoding of `n` into exactly `k` bytes. -/
def natToBeBytes : Nat → Nat → List Nat
  | 0, _ => []
  | k + 1, n => natToBeBytes k (n / 256) ++ [n % 256]

/-- Big-endian interpretation of a byte sequence as a natural number. -/
def beBytesToNat (bs : List Nat) : Nat := bs.foldl (fun a b => a * 256 + b) 0

/-! ## Error taxonomy (src/password_manager/src/errors.rs) -/

/-- `PasswordManagerError` from src/password_manager/src/errors.rs.  The
`serde_json::Error` payload of `SerializationError` and the `std::io::Error`
payload of `IoError` are not themselves modelled. -/
inductive PMError
  | VaultNotFound
  | VaultAlreadyExists (path : String)
  | InvalidMasterPassword
  | CredentialNotFound (service : String)
  | CredentialAlreadyExists (service : String)
  | EncryptionError (msg : String)
  | DecryptionError (msg : String)
  | SerializationError
  | IoError (msg : String)
  | InvalidInput (msg : String)
  | ClipboardError (msg : String)
deriving DecidableEq, Repr

/-! ## CryptoEngine (src/password_manager/src/crypto.rs)

The repository encrypts with AES-256-GCM through the external `aes_gcm`
crate.  The GCM mode structure — counter-mode keystream XOR, GHASH over the
ciphertext and the bit length, and a tag that decryption recomputes and
compares — is modelled concretely below.  The AES-256 permutation itself is
not part of this repository. -/

/-- AES-GCM nonce size (96 bits / 12 bytes), `NONCE_SIZE` in crypto.rs. -/
def NONCE_SIZE : Nat := 12

/-- Modelled from the spec: the AES-256 block permutation used by the external
`aes_gcm` crate ("authenticated-encryption transform (256-bit key, 128-bit
authentication tag)").  The AES round structure lives outside this repository,
so the block function is modelled as a concrete deterministic 16-byte function
of the key and the input block.  Every theorem below depends only on the GCM
mode structure (keystream XOR and recomputed-tag comparison) and holds for
every block function, so the stand-in weakens nothing. -/
def blockCipher (key block : List Nat) : List Nat :=
  let seed := (key ++ [257] ++ block).foldl
    (fun a b => (a * 16777619 + b + 1) % (2 ^ 64)) 1099511627776
  (List.range 16).map (fun i => ((seed >>> (8 * (i % 8))) + i * 131 + seed % (i + 3)) % 256)

/-- One step of carry-less multiplication in GF(2^128) modulo
x^128 + x^7 + x^2 + x + 1, processing bit `i` of the multiplier. -/
def gfMultGo : Nat → Nat → Nat → Nat → Nat
  | 0, _, _, acc => acc
  | i + 1, x, y, acc =>
    let acc := acc * 2
    let acc := if 2 ^ 128 ≤ acc then acc ^^^ (2 ^ 128 + 0x87) else acc
    let acc := if y.testBit i then acc ^^^ x else acc
    gfMultGo i x y acc

/-- Multiplication in GF(2^128) (GHASH field, modelled unreflected). -/
def gfMult (x y : Nat) : Nat := gfMultGo 128 x y 0

/-- Structural worker for `chunks16` (fuel-bounded so the kernel can
evaluate it; `l.length` fuel always suffices). -/
def chunks16Go : Nat → List Nat → List (List Nat)
  | 0, _ => []
  | _ + 1, [] => []
  | fuel + 1, b :: rest => ((b :: rest).take 16) :: chunks16Go fuel ((b :: rest).drop 16)

/-- Split a byte sequence into 16-byte chunks (last chunk possibly short). -/
def chunks16 (l : List Nat) : List (List Nat) := chunks16Go l.length l

/-- GHASH: fold the 16-byte chunks of `data` through the field. -/
def ghash (h : Nat) (data : List Nat) : Nat :=
  (chunks16 data).foldl (fun s b => gfMult (s ^^^ beBytesToNat b) h) 0

/-- Zero-pad a byte sequence up to a multiple of 16 bytes. -/
def pad16 (l : List Nat) : List Nat :=
  l ++ List.replicate ((16 - l.length % 16) % 16) 0

/-- Counter-mode keystream blocks: block `i` encrypts `nonce ‖ be32 (i+2)`
(GCM reserves counter 1 for the tag mask). -/
def gcmKeystreamBlocks (key nonce : List Nat) : Nat → List Nat
  | 0 => []
  | i + 1 => gcmKeystreamBlocks key nonce i ++ blockCipher key (nonce ++ natToBeBytes 4 (i + 2))

/-- The first `n` keystream bytes for a given key and nonce. -/
def gcmKeystream (key nonce : List Nat) (n : Nat) : List Nat :=
  (gcmKeystreamBlocks key nonce ((n + 15) / 16)).take n

/-- The 16-byte GCM authentication tag over a ciphertext (no associated
data, as in the source): GHASH under H = E_K(0^16), masked with
E_K(nonce ‖ be32 1). -/
def gcmTag (key nonce ct : List Nat) : List Nat :=
  let h := beBytesToNat (blockCipher key (List.replicate 16 0))
  let s := ghash h (pad16 ct ++ natToBeBytes 8 0 ++ natToBeBytes 8 (ct.length * 8))
  zipXor (natToBeBytes 16 s) (blockCipher key (nonce ++ natToBeBytes 4 1))

/-- `encrypt` from src/password_manager/src/crypto.rs lines 82-98.  The
source draws a fresh random 12-byte nonce from `OsRng`; the drawn bytes are
passed here explicitly.  The `aes_gcm` crate appends the 16-byte tag to the
ciphertext, and the function returns `(ciphertext, nonce)`. -/
def encrypt (plaintext key nonceBytes : List Nat) : List Nat × List Nat :=
  let ct := zipXor plaintext (gcmKeystream key nonceBytes plaintext.length)
  (ct ++ gcmTag key nonceBytes ct, nonceBytes)

/-- `decrypt` from src/password_manager/src/crypto.rs lines 101-120: rejects
nonces that are not 12 bytes with `DecryptionError`, then verifies the
authentication tag and fails with `DecryptionError` on any mismatch. -/
def decrypt (ciphertext key nonce : List Nat) : Except PMError (List Nat) :=
  if nonce.length ≠ NONCE_SIZE then
    .error (.DecryptionError "Invalid nonce size")
  else if ciphertext.length < 16 then
    .error (.DecryptionError "aead::Error")
  else
    let ct := ciphertext.take (ciphertext.length - 16)
    let tag := ciphertext.drop (ciphertext.length - 16)
    if gcmTag key nonce ct = tag then
      .ok (zipXor ct (gcmKeystream key nonce ct.length))
    else
      .error (.DecryptionError "aead::Error")

/-! ## Data model (src/password_manager/src/models.rs)

`DateTime<Utc>` instants are modelled as abstract `Nat` time stamps supplied
explicitly at each call that the source would stamp with `Utc::now()`;
`HashMap<String, String>` custom fields are modelled as association lists. -/

/-- `PasswordHistoryEntry` from models.rs lines 7-12. -/
structure PasswordHistoryEntry where
  password : String
  changed_at : Nat
deriving DecidableEq, Repr

/-- `Credential` from models.rs lines 15-36.  `password` carries
`#[serde(skip)] #[serde(default)]`. -/
structure Credential where
  service : String
  username : String
  password : String
  notes : Option String
  url : Option String
  tags : List String
  favorite : Bool
  created_at : Nat
  updated_at : Nat
  last_accessed : Option Nat
  custom_fields : List (String × String)
  password_history : List PasswordHistoryEntry
  totp_secret : Option String
deriving DecidableEq, Repr

/-- `Credential::new` from models.rs lines 40-57 (`now` is the `Utc::now()`
instant). -/
def Credential.new (service username password : String) (notes : Option String)
    (now : Nat) : Credential :=
  { service := service, username := username, password := password, notes := notes,
    url := none, tags := [], favorite := false, created_at := now, updated_at := now,
    last_accessed := none, custom_fields := [], password_history := [], totp_secret := none }

/-- `Credential::update_password` from models.rs lines 59-75: if the current
password is non-empty, push it onto the history stamped `now` and, when the
history then exceeds 10 entries, `remove(0)` the oldest; finally overwrite
`password` and bump `updated_at`. -/
def Credential.updatePassword (c : Credential) (new_password : String) (now : Nat) : Credential :=
  let hist :=
    if c.password ≠ "" then
      let pushed := c.password_history ++ [⟨c.password, now⟩]
      if 10 < pushed.length then pushed.drop 1 else pushed
    else c.password_history
  { c with password := new_password, updated_at := now, password_history := hist }

/-- A sequence of `update_password` calls, each with its own `Utc::now()`
instant: `applyUpdates c [(p₁,t₁),…,(pₙ,tₙ)]` is
`c.update_password(p₁)` at `t₁`, then `update_password(p₂)` at `t₂`, …. -/
def applyUpdates (c : Credential) (ps : List (String × Nat)) : Credential :=
  ps.foldl (fun acc p => acc.updatePassword p.1 p.2) c

/-- `VaultSettings` from models.rs lines 134-151. -/
structure VaultSettings where
  auto_lock_timeout_minutes : Option Nat
  require_totp : Bool
  backup_enabled : Bool
  backup_count : Nat
deriving DecidableEq, Repr

/-- `VaultSettings::default`. -/
def VaultSettings.default : VaultSettings :=
  { auto_lock_timeout_minutes := some 15, require_totp := false,
    backup_enabled := true, backup_count := 5 }

/-- `VaultStats` from models.rs lines 154-162. -/
structure VaultStats where
  total_credentials : Nat
  total_accesses : Nat
  weak_passwords : Nat
  reused_passwords : Nat
  old_passwords : Nat
  last_backup : Option Nat
deriving DecidableEq, Repr

/-- `VaultStats::default` (all-zero `Default` derive). -/
def VaultStats.default : VaultStats :=
  { total_credentials := 0, total_accesses := 0, weak_passwords := 0,
    reused_passwords := 0, old_passwords := 0, last_backup := none }

/-- `AuditLogEntry` from models.rs lines 175-181. -/
structure AuditLogEntry where
  timestamp : Nat
  operation : String
  service : Option String
  success : Bool
deriving DecidableEq, Repr

/-- The in-memory decrypted `Vault` from models.rs lines 165-172. -/
structure Vault where
  credentials : List Credential
  settings : VaultSettings
  stats : VaultStats
  audit_log : List AuditLogEntry
deriving DecidableEq, Repr

/-- `Vault::new` (the `Default` derive). -/
def Vault.new : Vault :=
  { credentials := [], settings := VaultSettings.default,
    stats := VaultStats.default, audit_log := [] }

/-! ## serde round trip (claim C2)

serde's derived `Serialize`/`Deserialize` write every `Credential` field to
the JSON blob except `password`, which is `#[serde(skip)]` and filled back by
`#[serde(default)]` (`String::default()`, the empty string) on
deserialization.  The wire form is modelled at the data level: `serde_json`'s
round trip of a derived type is the identity on the serialized fields. -/

/-- The serialized (wire) form of a `Credential`: every field except
`password` (models.rs lines 19-21). -/
structure CredentialWire where
  service : String
  username : String
  notes : Option String
  url : Option String
  tags : List String
  favorite : Bool
  created_at : Nat
  updated_at : Nat
  last_accessed : Option Nat
  custom_fields : List (String × String)
  password_history : List PasswordHistoryEntry
  totp_secret : Option String
deriving DecidableEq, Repr

/-- Derived `Serialize` for `Credential`: drop the skipped `password`. -/
def serializeCredential (c : Credential) : CredentialWire :=
  { service := c.service, username := c.username, notes := c.notes, url := c.url,
    tags := c.tags, favorite := c.favorite, created_at := c.created_at,
    updated_at := c.updated_at, last_accessed := c.last_accessed,
    custom_fields := c.custom_fields, password_history := c.password_history,
    totp_secret := c.totp_secret }

/-- Derived `Deserialize` for `Credential`: the skipped `password` comes back
as `String::default()`, the empty string. -/
def deserializeCredential (w : CredentialWire) : Credential :=
  { service := w.service, username := w.username, password := "", notes := w.notes,
    url := w.url, tags := w.tags, favorite := w.favorite, created_at := w.created_at,
    updated_at := w.updated_at, last_accessed := w.last_accessed,
    custom_fields := w.custom_fields, password_history := w.password_history,
    totp_secret := w.totp_secret }

/-- The serialized form of a `Vault`: all four fields, credentials in wire
form. -/
structure VaultWire where
  credentials : List CredentialWire
  settings : VaultSettings
  stats : VaultStats
  audit_log : List AuditLogEntry
deriving DecidableEq, Repr

/-- Derived `Serialize` for `Vault`. -/
def serializeVault (v : Vault) : VaultWire :=
  { credentials := v.credentials.map serializeCredential, settings := v.settings,
    stats := v.stats, audit_log := v.audit_log }

/-- Derived `Deserialize` for `Vault`. -/
def deserializeVault (w : VaultWire) : Vault :=
  { credentials := w.credentials.map deserializeCredential, settings := w.settings,
    stats := w.stats, audit_log := w.audit_log }

/-! ## Vault CRUD (models.rs lines 190-332, vault.rs lines 150-219) -/

/-- `Vault::get_credential` (models.rs lines 230-232): first credential whose
service matches. -/
def Vault.getCredential (v : Vault) (service : String) : Option Credential :=
  v.credentials.find? (fun c => c.service == service)

/-- `Vault::add_credential` (models.rs lines 218-228): reject when any
existing credential has the same service, else push. -/
def Vault.addCredential (v : Vault) (c : Credential) : Except String Vault :=
  if v.credentials.any (fun x => x.service == c.service) then
    .error ("Credential already exists: " ++ c.service)
  else
    .ok { v with credentials := v.credentials ++ [c] }

/-- `Vault::remove_credential` (models.rs lines 238-245): retain the
credentials of other services; error when nothing was removed. -/
def Vault.removeCredential (v : Vault) (service : String) : Except String Vault :=
  let remaining := v.credentials.filter (fun c => ¬ (c.service == service))
  if remaining.length = v.credentials.length then
    .error ("Credential not found: " ++ service)
  else
    .ok { v with credentials := remaining }

/-- `Vault::get_credential_mut` followed by a mutation of the found
credential: update the first credential whose service matches. -/
def updateFirstCred (service newPassword : String) (now : Nat) :
    List Credential → List Credential
  | [] => []
  | c :: rest =>
    if c.service == service then c.updatePassword newPassword now :: rest
    else c :: updateFirstCred service newPassword now rest

/-- The in-memory part of `VaultManager::add_credential` (vault.rs lines
151-173): check `get_credential` first and fail with
`CredentialAlreadyExists` leaving the vault untouched, else delegate to
`Vault::add_credential` (whose `Err` would surface as `InvalidInput`).  The
subsequent salt re-read and `save` call are modelled separately (`saveOps`).
Mirroring `&mut self`, the vault is returned alongside the outcome. -/
def managerAddCredential (v : Vault) (c : Credential) : Vault × Option PMError :=
  if (v.getCredential c.service).isSome then
    (v, some (.CredentialAlreadyExists c.service))
  else
    match v.addCredential c with
    | .error msg => (v, some (.InvalidInput msg))
    | .ok v2 => (v2, none)

/-- The in-memory part of `VaultManager::update_credential` (vault.rs lines
186-202): find the credential or fail with `CredentialNotFound`, else
`update_password` it in place. -/
def managerUpdateCredential (v : Vault) (service newPassword : String) (now : Nat) :
    Vault × Option PMError :=
  if (v.getCredential service).isSome then
    ({ v with credentials := updateFirstCred service newPassword now v.credentials }, none)
  else
    (v, some (.CredentialNotFound service))

/-- The service names of a vault, in credential order. -/
def Vault.services (v : Vault) : List String := v.credentials.map (fun c => c.service)

/-- The vaults the manager can hold in memory: the empty vault created by
`initialize`, everything reachable from one by the mutating CRUD calls, and
the result of the save/unlock serde round trip (the on-disk cycle). -/
inductive Reachable : Vault → Prop
  | init : Reachable Vault.new
  | add {v w : Vault} {c : Credential} : Reachable v →
      managerAddCredential v c = (w, none) → Reachable w
  | remove {v w : Vault} {s : String} : Reachable v →
      Vault.removeCredential v s = .ok w → Reachable w
  | update {v : Vault} (s pw : String) (now : Nat) : Reachable v →
      Reachable (managerUpdateCredential v s pw now).1
  | roundtrip {v : Vault} : Reachable v → Reachable (deserializeVault (serializeVault v))

/-- A two-credential vault used as concrete input below. -/
def sampleCred : Credential := Credential.new "github.com" "alice" "x1" none 0

def sampleVault : Vault :=
  { Vault.new with credentials := [sampleCred, Credential.new "site.com" "bob" "x2" none 0] }

/-! ## Reuse detection (models.rs lines 292-309, claim C8)

The source builds a `HashMap<String, Vec<String>>`; a `HashMap` iterates its
entries in unspecified order, so the map is modelled as an association list
keyed in first-insertion order.  The `Vec` pushed under each key follows
credential order exactly as in the source. -/

/-- Look a key up in an association list (first match). -/
def alookup {α : Type} (s : String) : List (String × α) → Option α
  | [] => none
  | (k, v) :: rest => if k = s then some v else alookup s rest

/-- `password_map.entry(pw).or_default().push(service)`: append to the
existing entry or create a new one. -/
def insertService : List (String × List String) → String → String → List (String × List String)
  | [], pw, s => [(pw, [s])]
  | (k, v) :: rest, pw, s =>
    if k = pw then (k, v ++ [s]) :: rest else (k, v) :: insertService rest pw s

/-- The loop body of `find_reused_passwords`: skip credentials with an empty
password (`!cred.password.is_empty()`), otherwise push the service under the
password's entry. -/
def reusedFoldStep (m : List (String × List String)) (c : Credential) :
    List (String × List String) :=
  if c.password ≠ "" then insertService m c.password c.service else m

/-- `Vault::find_reused_passwords` (models.rs lines 292-309): group the
credentials with non-empty password by password value, then keep only the
groups with more than one service. -/
def Vault.findReusedPasswords (v : Vault) : List (String × List String) :=
  (v.credentials.foldl reusedFoldStep []).filter (fun e => 1 < e.2.length)

/-- The services of all credentials holding password `pw`, in vault order. -/
def servicesWith (creds : List Credential) (pw : String) : List String :=
  (creds.filter (fun c => c.password = pw)).map (fun c => c.service)

/-- A vault with two distinct services sharing the password `abc123`. -/
def reusedVault : Vault :=
  { Vault.new with credentials :=
      [Credential.new "github.com" "alice" "abc123" none 0,
       Credential.new "site.com" "bob" "abc123" none 0] }

/-- A vault with two credentials whose passwords are both empty. -/
def emptyPwVault : Vault :=
  { Vault.new with credentials :=
      [Credential.new "github.com" "alice" "" none 0,
       Credential.new "site.com" "bob" "" none 0] }

/-! ## Security analytics (src/password_manager/src/analytics.rs, claim C10)

Times are `Int` day counts (`chrono` durations in days); `now` is the
`Utc::now()` instant.  The zxcvbn-based strength predicates live in the
external `zxcvbn` crate and are abstracted as an oracle; the common-password
list is translated verbatim from breach.rs. -/

/-- `COMMON_PASSWORDS` from src/password_manager/src/security/breach.rs lines
35-84 (verbatim, including the duplicated `letmein`). -/
def COMMON_PASSWORDS : List String :=
  ["password", "123456", "12345678", "qwerty", "abc123", "monkey", "1234567",
   "letmein", "trustno1", "dragon", "baseball", "111111", "iloveyou", "master",
   "sunshine", "ashley", "bailey", "passw0rd", "shadow", "123123", "654321",
   "superman", "qazwsx", "michael", "football", "welcome", "jesus", "ninja",
   "mustang", "password1", "123456789", "admin", "welcome1", "login", "admin123",
   "root", "toor", "pass", "test", "guest", "changeme", "password123",
   "qwerty123", "letmein", "hello", "1234", "12345", "123"]

/-- `is_common_password` from breach.rs lines 33-88: case-insensitive
membership in the fixed list. -/
def isCommonPassword (password : String) : Bool :=
  COMMON_PASSWORDS.contains password.toLower

/-- Modelled from the spec: the zxcvbn-based strength predicates
(`is_weak_password`, and `analyze_password(..).strength >= Strong` with the
service and username as user inputs) live in the external `zxcvbn` crate
(strength.rs lines 62-121).  They are abstracted as an oracle; no theorem in
this file depends on their values. -/
structure StrengthOracle where
  isWeak : String → Bool
  isStrong : String → String → String → Bool

/-- `Credential::password_age_days` (models.rs lines 109-112) in days. -/
def Credential.passwordAgeDays (c : Credential) (now : Int) : Int :=
  now - (c.updated_at : Int)

/-- `Credential::is_old` (models.rs lines 115-117). -/
def Credential.isOld (c : Credential) (now threshold : Int) : Bool :=
  decide (threshold < c.passwordAgeDays now)

/-- `Vault::find_old_passwords` (models.rs lines 313-318). -/
def Vault.findOldPasswords (v : Vault) (now threshold : Int) : List Credential :=
  v.credentials.filter (fun c => c.isOld now threshold)

/-- `VaultHealth` from analytics.rs lines 9-20 (`average_password_age_days`
is `f64` in the source, modelled as an exact rational). -/
structure VaultHealth where
  overall_score : Nat
  total_credentials : Nat
  weak_passwords : Nat
  reused_passwords : Nat
  old_passwords : Nat
  strong_passwords : Nat
  common_passwords : Nat
  with_totp : Nat
  average_password_age_days : Rat
  recommendations : List String
deriving DecidableEq, Repr

/-- The score arithmetic of `analyze_vault_health` (analytics.rs lines
116-132).  The source computes each penalty and the TOTP bonus in IEEE-754
`f64` and truncates with `as u32`; exact binary64 rounding is outside this
embedding, so the products are modelled as exact rationals truncated toward
zero (`Nat` division), which agrees with the source whenever the `f64`
product is exact.  `Nat` subtraction saturates at zero exactly like the
source's `saturating_sub`.  No theorem in this file depends on this
function. -/
def healthScore (weak reused old common withTotp total : Nat) : Nat :=
  let score := 100 - weak * 30 / total - reused * 25 / total
    - old * 20 / total - common * 15 / total
  min (score + withTotp * 10 / total) 100

/-- The recommendation list of `analyze_vault_health` (analytics.rs lines
134-171), built in source order. -/
def healthRecommendations (weak reused old common withTotp total : Nat)
    (threshold : Int) : List String :=
  let recs :=
    (if 0 < weak then
      ["Update " ++ toString weak ++ " weak password(s) to stronger alternatives."] else [])
    ++ (if 0 < reused then
      ["Change " ++ toString reused ++
        " reused password(s). Each credential should have a unique password."] else [])
    ++ (if 0 < old then
      ["Update " ++ toString old ++ " old password(s) (older than " ++
        toString threshold ++ " days)."] else [])
    ++ (if 0 < common then
      ["Replace " ++ toString common ++ " common password(s) immediately!"] else [])
    ++ (if withTotp < total / 2 then
      ["Enable 2FA/TOTP for more accounts to improve security."] else [])
  if recs = [] then ["Your vault is in excellent condition! Keep it up."] else recs

/-- `analyze_vault_health` from analytics.rs lines 50-185: the empty vault
short-circuits to a perfect score with the single starter recommendation;
otherwise the per-category counts are taken over the credential list and fed
to the score and recommendation builders. -/
def analyzeVaultHealth (oracle : StrengthOracle) (now : Int) (v : Vault)
    (threshold : Int) : VaultHealth :=
  let total := v.credentials.length
  if total = 0 then
    { overall_score := 100, total_credentials := 0, weak_passwords := 0,
      reused_passwords := 0, old_passwords := 0, strong_passwords := 0,
      common_passwords := 0, with_totp := 0, average_password_age_days := 0,
      recommendations := ["Add credentials to start using the password manager."] }
  else
    let weak := (v.credentials.filter (fun c => oracle.isWeak c.password)).length
    let strong := (v.credentials.filter
      (fun c => !(oracle.isWeak c.password) &&
        oracle.isStrong c.password c.service c.username)).length
    let common := (v.credentials.filter (fun c => isCommonPassword c.password)).length
    let withTotp := (v.credentials.filter (fun c => c.totp_secret.isSome)).length
    let totalAge := (v.credentials.map (fun c => c.passwordAgeDays now)).sum
    let reused := v.findReusedPasswords.length
    let old := (v.findOldPasswords now threshold).length
    { overall_score := healthScore weak reused old common withTotp total,
      total_credentials := total, weak_passwords := weak, reused_passwords := reused,
      old_passwords := old, strong_passwords := strong, common_passwords := common,
      with_totp := withTotp,
      average_password_age_days := (totalAge : Rat) / (total : Rat),
      recommendations := healthRecommendations weak reused old common withTotp total threshold }

/-- A trivial strength oracle used only to instantiate C10 concretely. -/
def oracle0 : StrengthOracle := { isWeak := fun _ => true, isStrong := fun _ _ _ => false }

/-! ## On-disk format and VaultManager (src/password_manager/src/vault.rs)

`serde_json`'s byte encoding of the derived types is modelled by an explicit
injective codec (length-delimited fields); the properties proved about
`unlock` and `save` do not depend on the byte layout. -/

/-- `EncryptedVault` from models.rs lines 121-131. -/
structure EncryptedVault where
  salt : List Nat
  nonce : List Nat
  ciphertext : List Nat
  version : Nat
deriving DecidableEq, Repr

/-- `VAULT_VERSION` from vault.rs line 10. -/
def VAULT_VERSION : Nat := 1

/-- Modelled from the spec: `derive_key` (crypto.rs lines 23-43) runs Argon2id
from the external `argon2` crate over the password bytes and the salt,
producing a deterministic 32-byte key.  Like the source it returns a
`Result`: `hash_password_into` rejects salts shorter than the crate's 4-byte
minimum with `SaltTooShort`, which `derive_key` maps to `EncryptionError`
(`e.to_string()`).  The Argon2 mixing itself is outside this repository; the
success-path stand-in is a concrete deterministic mixing function, and the
theorems below depend only on determinism (same password and salt give the
same key). -/
def deriveKey (password : String) (salt : List Nat) : Except PMError (List Nat) :=
  if salt.length < 4 then
    .error (.EncryptionError "salt too short")
  else
    let pwBytes := password.toList.map Char.toNat
    let h := (pwBytes ++ [256] ++ salt).foldl (fun a b => (a * 131 + b + 17) % (2 ^ 61)) 7
    .ok ((List.range 32).map (fun i => (h / 2 ^ (i % 8) + i * 2654435761) % 256))

/-- A decoder: consume a prefix of a byte stream or fail. -/
def Dec (α : Type) : Type := StateT (List Nat) Option α

instance : Monad Dec := inferInstanceAs (Monad (StateT (List Nat) Option))

/-- Little-endian base-256 digits, by structural recursion on a fuel bound so
that the kernel can evaluate it (`natDigitsGo n n` are the digits of `n`). -/
def natDigitsGo : Nat → Nat → List Nat
  | 0, _ => []
  | _ + 1, 0 => []
  | fuel + 1, n + 1 => (n + 1) % 256 :: natDigitsGo fuel ((n + 1) / 256)

/-- Encode a natural number as its base-256 digits followed by a 256 marker. -/
def encNat (n : Nat) : List Nat := natDigitsGo n n ++ [256]

/-- Decode a marker-terminated base-256 number. -/
def decNat : Dec Nat := fun s =>
  match s.dropWhile (fun b => decide (b < 256)) with
  | 256 :: rest =>
    some ((s.takeWhile (fun b => decide (b < 256))).foldr (fun d acc => d + 256 * acc) 0, rest)
  | _ => none

/-- Decode exactly `n` consecutive values. -/
def decListN {α : Type} (d : Dec α) : Nat → Dec (List α)
  | 0 => pure []
  | n + 1 => do
    let x ← d
    let xs ← decListN d n
    pure (x :: xs)

/-- Encode a length-prefixed list. -/
def encList {α : Type} (enc : α → List Nat) (xs : List α) : List Nat :=
  encNat xs.length ++ xs.foldr (fun a acc => enc a ++ acc) []

/-- Decode a length-prefixed list. -/
def decList {α : Type} (d : Dec α) : Dec (List α) := do
  let n ← decNat
  decListN d n

/-- Encode a string as a length-prefixed list of code points. -/
def encStr (s : String) : List Nat := encList (fun c => encNat c.toNat) s.data

/-- Decode a string. -/
def decStr : Dec String := do
  let cs ← decList decNat
  pure (String.mk (cs.map Char.ofNat))

/-- Encode an optional value with a presence tag. -/
def encOpt {α : Type} (enc : α → List Nat) : Option α → List Nat
  | none => encNat 0
  | some a => encNat 1 ++ enc a

/-- Decode an optional value. -/
def decOpt {α : Type} (d : Dec α) : Dec (Option α) := do
  let t ← decNat
  if t = 0 then pure none
  else do
    let a ← d
    pure (some a)

/-- Encode a boolean. -/
def encBool (b : Bool) : List Nat := encNat (if b then 1 else 0)

/-- Decode a boolean. -/
def decBool : Dec Bool := do
  let t ← decNat
  pure (t == 1)

def encHistEntry (e : PasswordHistoryEntry) : List Nat :=
  encStr e.password ++ encNat e.changed_at

def decHistEntry : Dec PasswordHistoryEntry := do
  let p ← decStr
  let t ← decNat
  pure { password := p, changed_at := t }

def encPairStr (p : String × String) : List Nat := encStr p.1 ++ encStr p.2

def decPairStr : Dec (String × String) := do
  let a ← decStr
  let b ← decStr
  pure (a, b)

def encCredWire (w : CredentialWire) : List Nat :=
  encStr w.service ++ encStr w.username ++ encOpt encStr w.notes ++ encOpt encStr w.url ++
  encList encStr w.tags ++ encBool w.favorite ++ encNat w.created_at ++
  encNat w.updated_at ++ encOpt encNat w.last_accessed ++
  encList encPairStr w.custom_fields ++ encList encHistEntry w.password_history ++
  encOpt encStr w.totp_secret

def decCredWire : Dec CredentialWire := do
  let service ← decStr
  let username ← decStr
  let notes ← decOpt decStr
  let url ← decOpt decStr
  let tags ← decList decStr
  let favorite ← decBool
  let created ← decNat
  let updated ← decNat
  let last ← decOpt decNat
  let custom ← decList decPairStr
  let history ← decList decHistEntry
  let totp ← decOpt decStr
  pure { service := service, username := username, notes := notes, url := url,
         tags := tags, favorite := favorite, created_at := created,
         updated_at := updated, last_accessed := last, custom_fields := custom,
         password_history := history, totp_secret := totp }

def encSettings (s : VaultSettings) : List Nat :=
  encOpt encNat s.auto_lock_timeout_minutes ++ encBool s.require_totp ++
  encBool s.backup_enabled ++ encNat s.backup_count

def decSettings : Dec VaultSettings := do
  let auto ← decOpt decNat
  let req ← decBool
  let ben ← decBool
  let bc ← decNat
  pure { auto_lock_timeout_minutes := auto, require_totp := req,
         backup_enabled := ben, backup_count := bc }

def encStats (s : VaultStats) : List Nat :=
  encNat s.total_credentials ++ encNat s.total_accesses ++ encNat s.weak_passwords ++
  encNat s.reused_passwords ++ encNat s.old_passwords ++ encOpt encNat s.last_backup

def decStats : Dec VaultStats := do
  let tc ← decNat
  let ta ← decNat
  let wp ← decNat
  let rp ← decNat
  let op ← decNat
  let lb ← decOpt decNat
  pure { total_credentials := tc, total_accesses := ta, weak_passwords := wp,
         reused_passwords := rp, old_passwords := op, last_backup := lb }

def encAudit (e : AuditLogEntry) : List Nat :=
  encNat e.timestamp ++ encStr e.operation ++ encOpt encStr e.service ++ encBool e.success

def decAudit : Dec AuditLogEntry := do
  let ts ← decNat
  let op ← decStr
  let sv ← decOpt decStr
  let su ← decBool
  pure { timestamp := ts, operation := op, service := sv, success := su }

def encVaultWire (w : VaultWire) : List Nat :=
  encList encCredWire w.credentials ++ encSettings w.settings ++
  encStats w.stats ++ encList encAudit w.audit_log

def decVaultWire : Dec VaultWire := do
  let creds ← decList decCredWire
  let settings ← decSettings
  let stats ← decStats
  let audit ← decList decAudit
  pure { credentials := creds, settings := settings, stats := stats, audit_log := audit }

/-- `serde_json::to_vec` of a `Vault`. -/
def serializeVaultBytes (v : Vault) : List Nat := encVaultWire (serializeVault v)

/-- `serde_json::from_slice::<Vault>`: the whole input must parse. -/
def deserializeVaultBytes (bs : List Nat) : Option Vault :=
  match decVaultWire bs with
  | some (w, []) => some (deserializeVault w)
  | _ => none

/-- `serde_json::to_vec` of an `EncryptedVault` envelope. -/
def encEnvelope (ev : EncryptedVault) : List Nat :=
  encList encNat ev.salt ++ encList encNat ev.nonce ++
  encList encNat ev.ciphertext ++ encNat ev.version

def decEnvelopeBody : Dec EncryptedVault := do
  let salt ← decList decNat
  let nonce ← decList decNat
  let ct ← decList decNat
  let ver ← decNat
  pure { salt := salt, nonce := nonce, ciphertext := ct, version := ver }

/-- `serde_json::from_slice::<EncryptedVault>`. -/
def decodeEnvelope (bs : List Nat) : Option EncryptedVault :=
  match decEnvelopeBody bs with
  | some (ev, []) => some ev
  | _ => none

/-- The in-memory state of a `VaultManager` (vault.rs lines 13-17): the
optional decrypted vault and the optional derived master key (the
`vault_path` is passed alongside where needed). -/
structure VMState where
  vault : Option Vault
  master_key : Option (List Nat)
deriving DecidableEq, Repr

/-- The `Locked` state: no vault and no key resident. -/
def VMState.locked : VMState := { vault := none, master_key := none }

/-- `VaultManager::lock` (vault.rs lines 238-241): discard both the vault and
the key regardless of the previous state. -/
def VaultManager.lock (_previous : VMState) : VMState := { vault := none, master_key := none }

/-- `VaultManager::unlock` (vault.rs lines 78-101).  `fileContent` is the
result of `fs::read` on the vault path (`none` when the file does not
exist).  The envelope parse failure propagates as `SerializationError` (the
`#[from] serde_json::Error` conversion); a `derive_key` failure propagates
its `EncryptionError` (the `?` at vault.rs line 88); a decryption failure
propagates the error `decrypt` returned; only a plaintext that fails to
deserialize as a `Vault` is mapped to `InvalidMasterPassword`.  On success
both the vault and the key become resident; on every failure the state is
returned untouched. -/
def unlock (st : VMState) (fileContent : Option (List Nat)) (password : String) :
    VMState × Except PMError Unit :=
  match fileContent with
  | none => (st, .error .VaultNotFound)
  | some bytes =>
    match decodeEnvelope bytes with
    | none => (st, .error .SerializationError)
    | some ev =>
      match deriveKey password ev.salt with
      | .error e => (st, .error e)
      | .ok key =>
        match decrypt ev.ciphertext key ev.nonce with
        | .error e => (st, .error e)
        | .ok data =>
          match deserializeVaultBytes data with
          | none => (st, .error .InvalidMasterPassword)
          | some v => ({ vault := some v, master_key := some key }, .ok ())

/-- A file-system effect. -/
inductive FsOp
  | write (path : String) (data : List Nat)
  | rename (src dst : String)
deriving DecidableEq, Repr

/-- The bytes `VaultManager::save` (vault.rs lines 104-138) writes: the
serialized envelope holding the caller's salt, the fresh nonce drawn inside
`encrypt`, and the ciphertext of the serialized vault. -/
def saveBytes (v : Vault) (key salt nonce : List Nat) : List Nat :=
  encEnvelope
    { salt := salt,
      nonce := (encrypt (serializeVaultBytes v) key nonce).2,
      ciphertext := (encrypt (serializeVaultBytes v) key nonce).1,
      version := VAULT_VERSION }

/-- The file-system effect trace of `VaultManager::save` on the success path
of an unlocked manager (vault.rs line 135): exactly one direct
`fs::write(&self.vault_path, encrypted_data)`. -/
def saveOps (v : Vault) (key salt nonce : List Nat) (vaultPath : String) : List FsOp :=
  [.write vaultPath (saveBytes v key salt nonce)]

/-- The write-temp-then-atomically-rename discipline the claim asserts: the
target file changes only through a rename of a temporary file, never as the
destination of a direct write. -/
def atomicReplace (ops : List FsOp) (target : String) : Prop :=
  ∀ op ∈ ops, match op with
    | .write p _ => p ≠ target
    | .rename _ _ => True

/-- After `fs::write` to a file fails having written `k` bytes, the file
holds a prefix of the new data (`fs::write` truncates before writing), so the
previous content is gone. -/
def diskAfterFailedWrite (data : List Nat) (k : Nat) : List Nat := data.take k

instance {ε α : Type} [DecidableEq ε] [DecidableEq α] : DecidableEq (Except ε α) := fun x y =>
  match x, y with
  | .ok a, .ok b =>
    if h : a = b then isTrue (by rw [h]) else isFalse (fun hh => h (by cases hh; rfl))
  | .ok _, .error _ => isFalse (fun hh => Except.noConfusion hh)
  | .error _, .ok _ => isFalse (fun hh => Except.noConfusion hh)
  | .error e1, .error e2 =>
    if h : e1 = e2 then isTrue (by rw [h]) else isFalse (fun hh => h (by cases hh; rfl))

/-- A well-formed on-disk envelope — 32-byte salt as `generate_salt`
produces, 12-byte nonce — whose ciphertext has been tampered with (32
constant bytes): key derivation succeeds, but the 16-byte authentication tag
cannot match the tag recomputed under the derived key, so AEAD
authentication fails. -/
def c1Envelope : EncryptedVault :=
  { salt := List.range 32, nonce := List.range 12,
    ciphertext := List.replicate 32 7, version := VAULT_VERSION }

/-- The bytes of that vault file. -/
def c1File : List Nat := encEnvelope c1Envelope

/-- The key `derive_key` yields for password `"B"` and that envelope's salt. -/
def c1Key : List Nat :=
  match deriveKey "B" c1Envelope.salt with
  | .ok k => k
  | .error _ => []

/-! ## TOTP (src/password_manager/src/security/totp.rs, claim C9)

`generate_totp` reads `SystemTime::now()`; the Unix timestamp is passed
explicitly.  The `totp_custom::<Sha1>` code generator lives in the external
`totp_lite` crate; it is modelled in full below (RFC 6238 TOTP over a
complete HMAC-SHA-1), though the theorems depend only on the timestamp
entering the computation through `timestamp / step`. -/

/-- 32-bit left rotation. -/
def rotl32 (x k : Nat) : Nat := ((x <<< k) ||| (x >>> (32 - k))) % 2 ^ 32

/-- SHA-1 message padding: `0x80`, zeros to 56 mod 64, 8-byte bit length. -/
def sha1Pad (msg : List Nat) : List Nat :=
  msg ++ [0x80] ++ List.replicate ((119 - msg.length % 64) % 64) 0 ++
    natToBeBytes 8 (msg.length * 8)

/-- Structural worker splitting a stream into 64-byte chunks. -/
def chunks64Go : Nat → List Nat → List (List Nat)
  | 0, _ => []
  | _ + 1, [] => []
  | fuel + 1, b :: rest => ((b :: rest).take 64) :: chunks64Go fuel ((b :: rest).drop 64)

/-- Split a byte stream into 64-byte chunks. -/
def chunks64 (l : List Nat) : List (List Nat) := chunks64Go l.length l

/-- SHA-1 message-schedule extension: append `n` further words. -/
def sha1ExtendGo : Nat → List Nat → List Nat
  | 0, w => w
  | n + 1, w =>
    let l := w.length
    sha1ExtendGo n (w ++ [rotl32 ((w.getD (l - 3) 0) ^^^ (w.getD (l - 8) 0) ^^^
      (w.getD (l - 14) 0) ^^^ (w.getD (l - 16) 0)) 1])

/-- The five 32-bit words of SHA-1 state. -/
structure Sha1State where
  a : Nat
  b : Nat
  c : Nat
  d : Nat
  e : Nat
deriving DecidableEq, Repr

/-- One SHA-1 round with round index `i` and schedule word `wi`. -/
def sha1Round (st : Sha1State) (i wi : Nat) : Sha1State :=
  let f :=
    if i < 20 then (st.b &&& st.c) ||| ((st.b ^^^ 0xFFFFFFFF) &&& st.d)
    else if i < 40 then st.b ^^^ st.c ^^^ st.d
    else if i < 60 then (st.b &&& st.c) ||| (st.b &&& st.d) ||| (st.c &&& st.d)
    else st.b ^^^ st.c ^^^ st.d
  let k :=
    if i < 20 then 0x5A827999
    else if i < 40 then 0x6ED9EBA1
    else if i < 60 then 0x8F1BBCDC
    else 0xCA62C1D6
  let temp := (rotl32 st.a 5 + f + st.e + k + wi) % 2 ^ 32
  { a := temp, b := st.a, c := rotl32 st.b 30, d := st.c, e := st.d }

/-- Process one 64-byte chunk. -/
def sha1Chunk (h : Sha1State) (chunk : List Nat) : Sha1State :=
  let w := sha1ExtendGo 64
    ((List.range 16).map (fun i => beBytesToNat ((chunk.drop (4 * i)).take 4)))
  let r := (w.foldl (fun (acc : Nat × Sha1State) wi =>
    (acc.1 + 1, sha1Round acc.2 acc.1 wi)) (0, h)).2
  { a := (h.a + r.a) % 2 ^ 32, b := (h.b + r.b) % 2 ^ 32, c := (h.c + r.c) % 2 ^ 32,
    d := (h.d + r.d) % 2 ^ 32, e := (h.e + r.e) % 2 ^ 32 }

/-- SHA-1 of a byte sequence (20-byte digest). -/
def sha1 (msg : List Nat) : List Nat :=
  let final := (chunks64 (sha1Pad msg)).foldl sha1Chunk
    { a := 0x67452301, b := 0xEFCDAB89, c := 0x98BADCFE, d := 0x10325476, e := 0xC3D2E1F0 }
  natToBeBytes 4 final.a ++ natToBeBytes 4 final.b ++ natToBeBytes 4 final.c ++
    natToBeBytes 4 final.d ++ natToBeBytes 4 final.e

/-- HMAC-SHA-1. -/
def hmacSha1 (key msg : List Nat) : List Nat :=
  let key := if 64 < key.length then sha1 key else key
  let key := key ++ List.replicate (64 - key.length) 0
  sha1 ((key.map (fun b => b ^^^ 0x5C)) ++ sha1 ((key.map (fun b => b ^^^ 0x36)) ++ msg))

/-- Left-pad a string with zeros to width `n`. -/
def padLeftZeros (s : String) (n : Nat) : String :=
  String.mk (List.replicate (n - s.length) '0' ++ s.data)

/-- Modelled from the spec: `totp_custom::<Sha1>(step, digits, secret, time)`
from the external `totp_lite` crate — RFC 6238 TOTP: the counter is
`time / step`, HMAC-SHA-1 of its 8 big-endian bytes is dynamically truncated
(RFC 4226) and reduced mod `10^digits`, zero-padded to `digits` characters.
The theorems below depend only on the time step arithmetic. -/
def totpCustom (step digits : Nat) (secret : List Nat) (time : Nat) : String :=
  let counter := time / step
  let digest := hmacSha1 secret (natToBeBytes 8 counter)
  let offset := (digest.getD 19 0) &&& 0xF
  let code := (beBytesToNat ((digest.drop offset).take 4) &&& 0x7FFFFFFF) % 10 ^ digits
  padLeftZeros (toString code) digits

/-- The `BASE32_ALPHABET` bytes from totp.rs. -/
def BASE32_ALPHABET : List Nat := "ABCDEFGHIJKLMNOPQRSTUVWXYZ234567".data.map Char.toNat

/-- `decode_base32` from totp.rs lines 34-59: uppercase, strip `=`/space/`-`,
then 5-bit-pack through a `u32` accumulator; unknown characters (compared as
`c as u8`, i.e. the code point mod 256) fail. -/
def decodeBase32 (input : String) : Except String (List Nat) :=
  let cleaned := (input.data.map Char.toUpper).filter
    (fun c => !(c == '=' || c == ' ' || c == '-'))
  let r := cleaned.foldlM (fun (st : Nat × Nat × List Nat) c =>
    match BASE32_ALPHABET.findIdx? (fun x => x == c.toNat % 256) with
    | none => Except.error ("Invalid base32 character: " ++ String.mk [c])
    | some val =>
      let bits := ((st.1 <<< 5) ||| val) % 2 ^ 32
      let bitCount := st.2.1 + 5
      if 8 ≤ bitCount then
        Except.ok (bits &&& (2 ^ (bitCount - 8) - 1), bitCount - 8,
          st.2.2 ++ [(bits >>> (bitCount - 8)) % 256])
      else
        Except.ok (bits, bitCount, st.2.2)) ((0, 0, []) : Nat × Nat × List Nat)
  match r with
  | .error e => .error e
  | .ok st => .ok st.2.2

/-- `generate_totp` from totp.rs lines 5-18: base32-decode the secret and run
`totp_custom` with the 30-second `DEFAULT_STEP` and 6 digits at the current
Unix timestamp (passed explicitly).  `totp_custom` already yields exactly 6
characters, so the source's `format!` re-padding is the identity. -/
def generateTotp (secret : String) (timestamp : Nat) : Except String String :=
  match decodeBase32 secret with
  | .error e => .error e
  | .ok bytes => .ok (totpCustom 30 6 bytes timestamp)

/-- `verify_totp` from totp.rs lines 28-31: recompute the current code and
compare for exact string equality. -/
def verifyTotp (secret code : String) (timestamp : Nat) : Except String Bool :=
  match generateTotp secret timestamp with
  | .error e => .error e
  | .ok expected => .ok (expected == code)

/-! ## Theorems -/

/-! ### Length lemmas for the AEAD model -/

lemma length_natToBeBytes (k n : Nat) : (natToBeBytes k n).length = k := by
  induction k generalizing n with
  | zero => rfl
  | succ k ih => simp [natToBeBytes, ih]

lemma length_blockCipher (key block : List Nat) : (blockCipher key block).length = 16 := by
  simp [blockCipher]

lemma length_gcmKeystreamBlocks (key nonce : List Nat) (i : Nat) :
    (gcmKeystreamBlocks key nonce i).length = 16 * i := by
  induction i with
  | zero => rfl
  | succ i ih =>
    simp [gcmKeystreamBlocks, ih, length_blockCipher]
    ring

lemma length_gcmKeystream (key nonce : List Nat) (n : Nat) :
    (gcmKeystream key nonce n).length = n := by
  simp only [gcmKeystream, List.length_take, length_gcmKeystreamBlocks]
  omega

lemma length_zipXor (a b : List Nat) : (zipXor a b).length = min a.length b.length := by
  simp [zipXor]

lemma length_gcmTag (key nonce ct : List Nat) : (gcmTag key nonce ct).length = 16 := by
  simp [gcmTag, length_zipXor, length_natToBeBytes, length_blockCipher]

lemma zipXor_zipXor_cancel (p ks : List Nat) (h : p.length ≤ ks.length) :
    zipXor (zipXor p ks) ks = p := by
  induction p generalizing ks with
  | nil => simp [zipXor]
  | cons x xs ih =>
    cases ks with
    | nil => simp at h
    | cons k ks =>
      have h' : xs.length ≤ ks.length := by simp at h; omega
      simp only [zipXor, List.zipWith_cons_cons]
      rw [show Nat.xor (Nat.xor x k) k = x from Nat.xor_cancel_right k x]
      exact congrArg (List.cons x) (ih ks h')

/-- C4.  For every plaintext byte sequence `p`, key `k`, and (12-byte, as
always drawn by the source) nonce `n`, decrypting the output of
`encrypt p k n` with the same key and nonce succeeds and returns exactly
`p`: `decrypt (encrypt p k).ciphertext k (encrypt p k).nonce = ok p`. -/
theorem C4_encrypt_decrypt_roundtrip (p k n : List Nat) (hn : n.length = 12) :
    decrypt (encrypt p k n).1 k (encrypt p k n).2 = .ok p := by
  have hks : (gcmKeystream k n p.length).length = p.length := length_gcmKeystream k n p.length
  have hct : (zipXor p (gcmKeystream k n p.length)).length = p.length := by
    rw [length_zipXor, hks]; omega
  have htag := length_gcmTag k n (zipXor p (gcmKeystream k n p.length))
  simp only [encrypt, decrypt, NONCE_SIZE, hn]
  rw [if_neg (by omega)]
  rw [if_neg (by rw [List.length_append, hct, htag]; omega)]
  have hlen : (zipXor p (gcmKeystream k n p.length) ++
      gcmTag k n (zipXor p (gcmKeystream k n p.length))).length - 16 =
      (zipXor p (gcmKeystream k n p.length)).length := by
    simp [List.length_append, hct, htag]
  rw [hlen, List.take_left, List.drop_left, if_pos rfl, hct]
  exact congrArg Except.ok (zipXor_zipXor_cancel p _ (le_of_eq hks.symm))

/-- Witness for C4 at concrete inputs: a 3-byte plaintext, a 32-byte key and
a 12-byte nonce. -/
theorem C4_witness :
    (List.range 12).length = 12 ∧
      decrypt (encrypt [104, 105, 33] (List.range 32) (List.range 12)).1
        (List.range 32) (encrypt [104, 105, 33] (List.range 32) (List.range 12)).2 =
        .ok [104, 105, 33] :=
  ⟨by decide, C4_encrypt_decrypt_roundtrip [104, 105, 33] (List.range 32) (List.range 12)
    (by decide)⟩

lemma roundtrip_cred (c : Credential) :
    deserializeCredential (serializeCredential c) = { c with password := "" } := rfl

lemma roundtrip_vault (v : Vault) :
    deserializeVault (serializeVault v) =
      { v with credentials := v.credentials.map (fun c => { c with password := "" }) } := by
  have h : deserializeCredential ∘ serializeCredential =
      (fun c : Credential => { c with password := "" }) := funext fun c => rfl
  simp only [deserializeVault, serializeVault, List.map_map, h]

/-- C2.  The serialize-then-deserialize round trip that `save` applies before
encryption and `unlock` applies after decryption preserves every credential
field except `password`: a deserialized credential carries the empty string
as its password (so credential passwords do not survive a lock followed by an
unlock), and a round-tripped vault is the original vault with every
credential's password blanked. -/
theorem C2_serde_roundtrip_drops_password :
    (∀ c : Credential, deserializeCredential (serializeCredential c) =
      { c with password := "" }) ∧
    (∀ v : Vault, deserializeVault (serializeVault v) =
      { v with credentials := v.credentials.map (fun c => { c with password := "" }) }) :=
  ⟨fun c => roundtrip_cred c, fun v => roundtrip_vault v⟩

/-! ## Password history bound (claim C6) -/

lemma updatePassword_history (c : Credential) (pw : String) (now : Nat)
    (hpw : c.password ≠ "") (hlen : c.password_history.length ≤ 10) :
    (c.updatePassword pw now).password_history =
      (c.password_history ++ [PasswordHistoryEntry.mk c.password now]).drop
        (c.password_history.length + 1 - 10) := by
  simp only [Credential.updatePassword, if_pos hpw]
  by_cases h10 : 10 < (c.password_history ++ [(⟨c.password, now⟩ : PasswordHistoryEntry)]).length
  · rw [if_pos h10]
    simp only [List.length_append, List.length_singleton] at h10 ⊢
    have : c.password_history.length + 1 - 10 = 1 := by omega
    rw [this]
  · rw [if_neg h10]
    simp only [List.length_append, List.length_singleton] at h10
    have : c.password_history.length + 1 - 10 = 0 := by omega
    rw [this, List.drop_zero]

lemma applyUpdates_history (ps : List (String × Nat)) (c : Credential)
    (hlen : c.password_history.length ≤ 10) (hpw : c.password ≠ "")
    (hall : ∀ p ∈ ps, p.1 ≠ "") :
    (applyUpdates c ps).password_history =
      (c.password_history ++
        List.zipWith PasswordHistoryEntry.mk (c.password :: ps.map Prod.fst)
          (ps.map Prod.snd)).drop (c.password_history.length + ps.length - 10) := by
  induction ps generalizing c with
  | nil =>
    simp only [applyUpdates, List.foldl_nil, List.map_nil, List.zipWith_nil_right,
      List.append_nil, List.length_nil, Nat.add_zero]
    rw [Nat.sub_eq_zero_of_le hlen, List.drop_zero]
  | cons p ps ih =>
    have hpw1 : p.1 ≠ "" := hall p (List.mem_cons_self p ps)
    have hall1 : ∀ q ∈ ps, q.1 ≠ "" := fun q hq => hall q (List.mem_cons_of_mem p hq)
    have hstep := updatePassword_history c p.1 p.2 hpw hlen
    have hc1pw : (c.updatePassword p.1 p.2).password = p.1 := rfl
    have hc1len : (c.updatePassword p.1 p.2).password_history.length =
        c.password_history.length + 1 - (c.password_history.length + 1 - 10) := by
      rw [hstep, List.length_drop, List.length_append, List.length_singleton]
    have hd1 : c.password_history.length + 1 - 10 ≤
        (c.password_history ++ [(⟨c.password, p.2⟩ : PasswordHistoryEntry)]).length := by
      rw [List.length_append, List.length_singleton]; omega
    show (applyUpdates (c.updatePassword p.1 p.2) ps).password_history = _
    rw [ih (c.updatePassword p.1 p.2) (by omega) (hc1pw ▸ hpw1) hall1, hc1len, hc1pw, hstep]
    rw [← List.drop_append_of_le_length hd1, List.drop_drop]
    simp only [List.map_cons, List.zipWith_cons_cons, List.length_cons]
    rw [List.append_assoc, List.singleton_append]
    congr 1
    omega

lemma applyUpdates_password (ps : List (String × Nat)) (c : Credential) :
    (applyUpdates c ps).password = (ps.map Prod.fst).getLastD c.password := by
  induction ps generalizing c with
  | nil => rfl
  | cons p ps ih =>
    show (applyUpdates (c.updatePassword p.1 p.2) ps).password = _
    rw [ih, List.map_cons, List.getLastD_cons]
    rfl

lemma applyUpdates_updated_at (ps : List (String × Nat)) (c : Credential) :
    (applyUpdates c ps).updated_at = (ps.map Prod.snd).getLastD c.updated_at := by
  induction ps generalizing c with
  | nil => rfl
  | cons p ps ih =>
    show (applyUpdates (c.updatePassword p.1 p.2) ps).updated_at = _
    rw [ih, List.map_cons, List.getLastD_cons]
    rfl

/-- C6.  Starting from a credential with a non-empty password and empty
history, a sequence of N `update_password` calls with non-empty new passwords
leaves `password_history` holding exactly the most recent `min N 10` prior
passwords in chronological order (oldest first, each stamped with the instant
of the call that displaced it), so its length is `min N 10`; each call
overwrites `password` with the new value and bumps `updated_at`, so the final
password and `updated_at` come from the last call. -/
theorem C6_update_password_history (c : Credential) (ps : List (String × Nat))
    (h0 : c.password_history = []) (hpw : c.password ≠ "")
    (hall : ∀ p ∈ ps, p.1 ≠ "") :
    (applyUpdates c ps).password_history =
      (List.zipWith PasswordHistoryEntry.mk (c.password :: ps.map Prod.fst)
        (ps.map Prod.snd)).drop (ps.length - 10) ∧
    (applyUpdates c ps).password_history.length = min ps.length 10 ∧
    (applyUpdates c ps).password = (ps.map Prod.fst).getLastD c.password ∧
    (applyUpdates c ps).updated_at = (ps.map Prod.snd).getLastD c.updated_at := by
  have h1 := applyUpdates_history ps c (by rw [h0]; simp) hpw hall
  rw [h0, List.nil_append, List.length_nil, Nat.zero_add] at h1
  refine ⟨h1, ?_, applyUpdates_password ps c, applyUpdates_updated_at ps c⟩
  rw [h1, List.length_drop, List.length_zipWith]
  simp only [List.length_cons, List.length_map]
  omega

/-- Witness for C6: 12 updates on a fresh credential leave exactly the last
10 prior passwords, in order. -/
theorem C6_witness :
    (applyUpdates (Credential.new "svc" "user" "p0" none 0)
        ((List.range 12).map (fun i => ("p" ++ toString (i + 1), i + 1)))).password_history =
      (List.range 10).map (fun i => ⟨"p" ++ toString (i + 2), i + 3⟩) ∧
    (applyUpdates (Credential.new "svc" "user" "p0" none 0)
        ((List.range 12).map (fun i => ("p" ++ toString (i + 1), i + 1)))).password = "p12" := by
  have h := C6_update_password_history (Credential.new "svc" "user" "p0" none 0)
    ((List.range 12).map (fun i => ("p" ++ toString (i + 1), i + 1)))
    (by decide) (by decide) (by decide)
  exact ⟨h.1.trans (by decide), h.2.2.1.trans (by decide)⟩

lemma services_updateFirstCred (service pw : String) (now : Nat) (l : List Credential) :
    (updateFirstCred service pw now l).map (fun c => c.service) =
      l.map (fun c => c.service) := by
  induction l with
  | nil => rfl
  | cons c rest ih =>
    by_cases h : c.service == service
    · simp [updateFirstCred, h]
      rfl
    · simp [updateFirstCred, h, ih]

lemma services_roundtrip (v : Vault) :
    (deserializeVault (serializeVault v)).services = v.services := by
  rw [roundtrip_vault]
  simp [Vault.services]

lemma reachable_services_nodup {v : Vault} (h : Reachable v) : v.services.Nodup := by
  induction h with
  | init => exact List.nodup_nil
  | add hr hadd ih =>
    rename_i v w c
    unfold managerAddCredential at hadd
    by_cases hdup : (v.getCredential c.service).isSome
    · rw [if_pos hdup] at hadd
      cases hadd
    · rw [if_neg hdup] at hadd
      unfold Vault.addCredential at hadd
      by_cases hany : v.credentials.any (fun x => x.service == c.service)
      · rw [if_pos hany] at hadd
        cases hadd
      · rw [if_neg hany] at hadd
        have hw : w = { v with credentials := v.credentials ++ [c] } := by
          cases hadd; rfl
        subst hw
        have hnotmem : c.service ∉ v.services := by
          intro hmem
          apply hany
          rw [List.any_eq_true]
          obtain ⟨x, hx, hxs⟩ := List.mem_map.mp hmem
          exact ⟨x, hx, by simp [hxs]⟩
        simp only [Vault.services, List.map_append, List.map_singleton]
        rw [List.nodup_append]
        refine ⟨ih, List.nodup_singleton _, ?_⟩
        intro a ha hb
        rw [List.mem_singleton] at hb
        exact hnotmem (hb ▸ ha)
  | remove hr hrem ih =>
    rename_i v w s
    unfold Vault.removeCredential at hrem
    by_cases hlen : (v.credentials.filter (fun c => ¬ (c.service == s))).length =
        v.credentials.length
    · rw [if_pos hlen] at hrem
      cases hrem
    · rw [if_neg hlen] at hrem
      have hw : w = { v with
          credentials := v.credentials.filter (fun c => ¬ (c.service == s)) } := by
        cases hrem; rfl
      subst hw
      exact ih.sublist (List.Sublist.map _ (List.filter_sublist _))
  | update s pw now hr ih =>
    rename_i v
    unfold managerUpdateCredential
    by_cases hfound : (v.getCredential s).isSome
    · rw [if_pos hfound]
      show (List.map _ (updateFirstCred s pw now v.credentials)).Nodup
      rw [services_updateFirstCred]
      exact ih
    · rw [if_neg hfound]
      exact ih
  | roundtrip hr ih =>
    rename_i v
    rw [services_roundtrip]
    exact ih

/-- C5.  Every reachable vault has pairwise-distinct service names, and
`add_credential` on a service already present fails with
`CredentialAlreadyExists` and returns the vault exactly as it was. -/
theorem C5_service_uniqueness :
    (∀ v : Vault, Reachable v → v.services.Nodup) ∧
    (∀ (v : Vault) (c : Credential), c.service ∈ v.services →
      managerAddCredential v c = (v, some (.CredentialAlreadyExists c.service))) := by
  refine ⟨fun v h => reachable_services_nodup h, fun v c hmem => ?_⟩
  have hsome : (v.getCredential c.service).isSome := by
    rw [Vault.getCredential, List.find?_isSome]
    obtain ⟨x, hx, hxs⟩ := List.mem_map.mp hmem
    exact ⟨x, hx, by simp [hxs]⟩
  rw [managerAddCredential, if_pos hsome]

/-- Witness for C5: the empty vault is reachable with distinct (no) services,
and re-adding `github.com` to a vault that has it fails with
`CredentialAlreadyExists` and leaves the vault as it was. -/
theorem C5_witness :
    Vault.new.services.Nodup ∧
    managerAddCredential sampleVault sampleCred =
      (sampleVault, some (.CredentialAlreadyExists "github.com")) :=
  ⟨C5_service_uniqueness.1 Vault.new Reachable.init,
   C5_service_uniqueness.2 sampleVault sampleCred (by decide)⟩

lemma alookup_insertService_same (pw s : String) :
    ∀ m : List (String × List String),
      alookup pw (insertService m pw s) = some (((alookup pw m).getD []) ++ [s])
  | [] => by simp [insertService, alookup]
  | (k, v) :: rest => by
    by_cases h : k = pw
    · subst h
      simp [insertService, alookup]
    · rw [show insertService ((k, v) :: rest) pw s = (k, v) :: insertService rest pw s by
        simp [insertService, h]]
      rw [show alookup pw ((k, v) :: insertService rest pw s) =
        alookup pw (insertService rest pw s) by simp [alookup, h]]
      rw [alookup_insertService_same pw s rest]
      rw [show alookup pw ((k, v) :: rest) = alookup pw rest by simp [alookup, h]]

lemma alookup_insertService_other (pw pw2 s : String) (h : pw2 ≠ pw) :
    ∀ m : List (String × List String),
      alookup pw2 (insertService m pw s) = alookup pw2 m
  | [] => by simp [insertService, alookup, Ne.symm h]
  | (k, v) :: rest => by
    by_cases hk : k = pw
    · subst hk
      rw [show insertService ((k, v) :: rest) k s = (k, v ++ [s]) :: rest by
        simp [insertService]]
      rw [show alookup pw2 ((k, v ++ [s]) :: rest) = alookup pw2 rest by
        simp [alookup, Ne.symm h]]
      rw [show alookup pw2 ((k, v) :: rest) = alookup pw2 rest by
        simp [alookup, Ne.symm h]]
    · rw [show insertService ((k, v) :: rest) pw s = (k, v) :: insertService rest pw s by
        simp [insertService, hk]]
      by_cases hk2 : k = pw2
      · subst hk2
        rw [show alookup k ((k, v) :: insertService rest pw s) = some v by simp [alookup]]
        rw [show alookup k ((k, v) :: rest) = some v by simp [alookup]]
      · rw [show alookup pw2 ((k, v) :: insertService rest pw s) =
          alookup pw2 (insertService rest pw s) by simp [alookup, hk2]]
        rw [show alookup pw2 ((k, v) :: rest) = alookup pw2 rest by simp [alookup, hk2]]
        exact alookup_insertService_other pw pw2 s h rest

lemma mem_keys_insertService {pw s x : String} :
    ∀ {m : List (String × List String)},
      x ∈ (insertService m pw s).map Prod.fst → x ∈ m.map Prod.fst ∨ x = pw
  | [], hx => by
    right
    simpa [insertService] using hx
  | (k, v) :: rest, hx => by
    by_cases hk : k = pw
    · subst hk
      left
      simpa [insertService] using hx
    · rw [show insertService ((k, v) :: rest) pw s = (k, v) :: insertService rest pw s by
        simp [insertService, hk], List.map_cons, List.mem_cons] at hx
      rcases hx with hx | hx
      · exact Or.inl (by simp [hx])
      · rcases mem_keys_insertService hx with h1 | h1
        · exact Or.inl (List.mem_cons_of_mem _ h1)
        · exact Or.inr h1

lemma nodup_keys_insertService {pw s : String} :
    ∀ {m : List (String × List String)},
      (m.map Prod.fst).Nodup → ((insertService m pw s).map Prod.fst).Nodup
  | [], _ => by simp [insertService]
  | (k, v) :: rest, h => by
    rw [List.map_cons, List.nodup_cons] at h
    by_cases hk : k = pw
    · subst hk
      rw [show insertService ((k, v) :: rest) k s = (k, v ++ [s]) :: rest by
        simp [insertService]]
      rw [List.map_cons, List.nodup_cons]
      exact h
    · rw [show insertService ((k, v) :: rest) pw s = (k, v) :: insertService rest pw s by
        simp [insertService, hk]]
      rw [List.map_cons, List.nodup_cons]
      refine ⟨fun hmem => ?_, nodup_keys_insertService h.2⟩
      rcases mem_keys_insertService hmem with h1 | h1
      · exact h.1 h1
      · exact hk h1

lemma reusedFold_lookup (creds : List Credential) (m : List (String × List String))
    (F : String → List String)
    (hI : ∀ pw, pw ≠ "" → alookup pw m = if F pw = [] then none else some (F pw)) :
    ∀ pw, pw ≠ "" → alookup pw (creds.foldl reusedFoldStep m) =
      if F pw ++ servicesWith creds pw = [] then none
      else some (F pw ++ servicesWith creds pw) := by
  induction creds generalizing m F with
  | nil =>
    intro pw hpw
    simpa [servicesWith] using hI pw hpw
  | cons c rest ih =>
    intro pw hpw
    rw [List.foldl_cons]
    by_cases hempty : c.password = ""
    · rw [show reusedFoldStep m c = m by simp [reusedFoldStep, hempty]]
      have hfilter : servicesWith (c :: rest) pw = servicesWith rest pw := by
        have hne : ¬ (c.password = pw) := by
          rw [hempty]
          exact fun hh => hpw hh.symm
        simp [servicesWith, List.filter_cons, hne]
      rw [hfilter]
      exact ih m F hI pw hpw
    · rw [show reusedFoldStep m c = insertService m c.password c.service by
        simp [reusedFoldStep, hempty]]
      have hI2 : ∀ q, q ≠ "" →
          alookup q (insertService m c.password c.service) =
            if F q ++ servicesWith [c] q = [] then none
            else some (F q ++ servicesWith [c] q) := by
        intro q hq
        by_cases hqc : q = c.password
        · subst hqc
          rw [alookup_insertService_same]
          have hsw : servicesWith [c] c.password = [c.service] := by
            simp [servicesWith, List.filter_cons]
          rw [hsw, hI c.password hq]
          by_cases hF : F c.password = []
          · simp [hF]
          · simp [hF]
        · rw [alookup_insertService_other c.password q c.service hqc]
          have hsw : servicesWith [c] q = [] := by
            have hne : ¬ (c.password = q) := fun hh => hqc hh.symm
            simp [servicesWith, List.filter_cons, hne]
          rw [hsw, List.append_nil]
          exact hI q hq
      rw [ih (insertService m c.password c.service)
        (fun q => F q ++ servicesWith [c] q) hI2 pw hpw]
      have hassoc : (F pw ++ servicesWith [c] pw) ++ servicesWith rest pw =
          F pw ++ servicesWith (c :: rest) pw := by
        rw [List.append_assoc]
        congr 1
        by_cases hcpw : c.password = pw
        · simp [servicesWith, List.filter_cons, hcpw]
        · simp [servicesWith, List.filter_cons, hcpw]
      rw [hassoc]

lemma nodup_keys_reusedFold (creds : List Credential) (m : List (String × List String))
    (h : (m.map Prod.fst).Nodup) :
    ((creds.foldl reusedFoldStep m).map Prod.fst).Nodup := by
  induction creds generalizing m with
  | nil => exact h
  | cons c rest ih =>
    rw [List.foldl_cons]
    by_cases hempty : c.password = ""
    · rw [show reusedFoldStep m c = m by simp [reusedFoldStep, hempty]]
      exact ih m h
    · rw [show reusedFoldStep m c = insertService m c.password c.service by
        simp [reusedFoldStep, hempty]]
      exact ih _ (nodup_keys_insertService h)

lemma alookup_eq_none_of_not_mem {α : Type} {m : List (String × α)} {s : String}
    (h : s ∉ m.map Prod.fst) : alookup s m = none := by
  induction m with
  | nil => rfl
  | cons e rest ih =>
    obtain ⟨k, v⟩ := e
    rw [List.map_cons, List.mem_cons] at h
    push_neg at h
    rw [show alookup s ((k, v) :: rest) = alookup s rest by simp [alookup, Ne.symm h.1]]
    exact ih h.2

lemma alookup_filter {α : Type} (p : String × α → Bool) (s : String) :
    ∀ m : List (String × α), (m.map Prod.fst).Nodup →
      alookup s (m.filter p) =
        match alookup s m with
        | some v => if p (s, v) then some v else none
        | none => none
  | [], _ => rfl
  | (k, v) :: rest, hnd => by
    rw [List.map_cons, List.nodup_cons] at hnd
    by_cases hk : k = s
    · subst hk
      rw [List.filter_cons]
      by_cases hp : p (k, v)
      · rw [if_pos hp]
        simp [alookup, hp]
      · rw [if_neg hp]
        have hnone : alookup k rest = none := alookup_eq_none_of_not_mem hnd.1
        have hrec := alookup_filter p k rest hnd.2
        rw [hnone] at hrec
        rw [show alookup k ((k, v) :: rest) = some v by simp [alookup]]
        rw [hrec]
        simp [hp]
    · rw [List.filter_cons]
      rw [show alookup s ((k, v) :: rest) = alookup s rest by simp [alookup, hk]]
      by_cases hp : p (k, v)
      · rw [if_pos hp]
        rw [show alookup s ((k, v) :: rest.filter p) = alookup s (rest.filter p) by
          simp [alookup, hk]]
        exact alookup_filter p s rest hnd.2
      · rw [if_neg hp]
        exact alookup_filter p s rest hnd.2

/-- C8 (amended).  For every non-empty password `pw`,
`find_reused_passwords` holds a group keyed by `pw` exactly when more than
one credential carries `pw`, and that group lists all the services whose
credential holds `pw`, in vault order.  (The amendment: credentials whose
password is the empty string are excluded by the source's
`!cred.password.is_empty()` filter, so they are never grouped.) -/
theorem C8_find_reused_groups (v : Vault) (pw : String) (hpw : pw ≠ "") :
    alookup pw v.findReusedPasswords =
      if 1 < (servicesWith v.credentials pw).length
      then some (servicesWith v.credentials pw) else none := by
  have hnd : ((v.credentials.foldl reusedFoldStep []).map Prod.fst).Nodup :=
    nodup_keys_reusedFold v.credentials [] (by simp)
  have hfold := reusedFold_lookup v.credentials [] (fun _ => [])
    (fun q hq => by simp [alookup]) pw hpw
  rw [List.nil_append] at hfold
  rw [show v.findReusedPasswords =
      (v.credentials.foldl reusedFoldStep []).filter (fun e => 1 < e.2.length) from rfl]
  rw [alookup_filter (fun e => 1 < e.2.length) pw (v.credentials.foldl reusedFoldStep []) hnd]
  rw [hfold]
  by_cases hempty : servicesWith v.credentials pw = []
  · rw [if_pos hempty, hempty]
    simp
  · rw [if_neg hempty]
    by_cases hlen : 1 < (servicesWith v.credentials pw).length
    · simp [hlen]
    · simp [hlen]

/-- Witness for C8: the two `abc123` credentials are reported together in one
group listing both services. -/
theorem C8_witness :
    alookup "abc123" reusedVault.findReusedPasswords = some ["github.com", "site.com"] :=
  (C8_find_reused_groups reusedVault "abc123" (by decide)).trans (by decide)

/-- Counterexample to C8 as stated: two credentials share an identical
password (the empty string), yet `find_reused_passwords` reports no group at
all — the source skips credentials with empty passwords, so not *all*
credentials are grouped by password value. -/
theorem C8_counterexample :
    1 < (servicesWith emptyPwVault.credentials "").length ∧
    emptyPwVault.findReusedPasswords = [] := by
  exact ⟨by decide, by decide⟩

/-- C10.  For every threshold (and oracle and instant), `analyze_vault_health`
on a vault with zero credentials returns overall score exactly 100, all
category counts zero, and the single "nothing to do" recommendation. -/
theorem C10_empty_vault_health (oracle : StrengthOracle) (now threshold : Int)
    (v : Vault) (hv : v.credentials = []) :
    analyzeVaultHealth oracle now v threshold =
      { overall_score := 100, total_credentials := 0, weak_passwords := 0,
        reused_passwords := 0, old_passwords := 0, strong_passwords := 0,
        common_passwords := 0, with_totp := 0, average_password_age_days := 0,
        recommendations := ["Add credentials to start using the password manager."] } ∧
    (analyzeVaultHealth oracle now v threshold).recommendations.length = 1 := by
  have h : analyzeVaultHealth oracle now v threshold =
      { overall_score := 100, total_credentials := 0, weak_passwords := 0,
        reused_passwords := 0, old_passwords := 0, strong_passwords := 0,
        common_passwords := 0, with_totp := 0, average_password_age_days := 0,
        recommendations := ["Add credentials to start using the password manager."] } := by
    simp [analyzeVaultHealth, hv]
  exact ⟨h, by rw [h]; rfl⟩

/-- Witness for C10 at a concrete oracle, instant, threshold and the empty
vault. -/
theorem C10_witness :
    analyzeVaultHealth oracle0 0 Vault.new 90 =
      { overall_score := 100, total_credentials := 0, weak_passwords := 0,
        reused_passwords := 0, old_passwords := 0, strong_passwords := 0,
        common_passwords := 0, with_totp := 0, average_password_age_days := 0,
        recommendations := ["Add credentials to start using the password manager."] } ∧
    (analyzeVaultHealth oracle0 0 Vault.new 90).recommendations.length = 1 :=
  C10_empty_vault_health oracle0 0 90 Vault.new rfl

lemma decrypt_error_msg {cipher key nonce : List Nat} {e : PMError}
    (h : decrypt cipher key nonce = .error e) : ∃ msg, e = .DecryptionError msg := by
  rw [decrypt] at h
  by_cases h1 : nonce.length ≠ NONCE_SIZE
  · rw [if_pos h1] at h
    exact ⟨"Invalid nonce size", by cases h; rfl⟩
  · rw [if_neg h1] at h
    by_cases h2 : cipher.length < 16
    · rw [if_pos h2] at h
      exact ⟨"aead::Error", by cases h; rfl⟩
    · rw [if_neg h2] at h
      by_cases h3 : gcmTag key nonce (cipher.take (cipher.length - 16)) =
          cipher.drop (cipher.length - 16)
      · rw [if_pos h3] at h
        cases h
      · rw [if_neg h3] at h
        exact ⟨"aead::Error", by cases h; rfl⟩

/-- C1 (amended).  When the vault file parses as an envelope, key derivation
from the supplied password and the stored salt succeeds, and AEAD
authentication of the ciphertext under that key fails (wrong password,
corrupted ciphertext, or tampering), `VaultManager::unlock` returns exactly
the `DecryptionError` that `decrypt` produced — not `InvalidMasterPassword`,
which `unlock` reserves for plaintext that fails to deserialize as a
`Vault` — and the in-memory state is returned untouched, so a locked manager
stays `Locked` with no vault and no key retained. -/
theorem C1_unlock_auth_failure (st : VMState) (bytes : List Nat) (pw : String)
    (ev : EncryptedVault) (key : List Nat) (e : PMError)
    (henv : decodeEnvelope bytes = some ev)
    (hkey : deriveKey pw ev.salt = .ok key)
    (hdec : decrypt ev.ciphertext key ev.nonce = .error e) :
    unlock st (some bytes) pw = (st, .error e) ∧ ∃ msg, e = .DecryptionError msg := by
  refine ⟨?_, decrypt_error_msg hdec⟩
  simp only [unlock, henv, hkey, hdec]

set_option maxRecDepth 100000 in
/-- Counterexample to C1 as stated: unlocking a vault file whose ciphertext
fails AEAD authentication against the derived key leaves the manager locked
but fails with `DecryptionError`, not `InvalidMasterPassword`. -/
theorem C1_counterexample :
    unlock VMState.locked (some c1File) "B" =
      (VMState.locked, .error (.DecryptionError "aead::Error")) ∧
    PMError.DecryptionError "aead::Error" ≠ PMError.InvalidMasterPassword := by
  exact ⟨by decide, by decide⟩

set_option maxRecDepth 100000 in
/-- Witness for C1 (amended) at the same concrete wrong-password input. -/
theorem C1_witness :
    unlock VMState.locked (some c1File) "B" =
      (VMState.locked, .error (.DecryptionError "aead::Error")) ∧
    ∃ msg, PMError.DecryptionError "aead::Error" = .DecryptionError msg :=
  C1_unlock_auth_failure VMState.locked c1File "B" c1Envelope c1Key
    (.DecryptionError "aead::Error") (by decide) (by decide) (by decide)

/-- C3 (amended).  `VaultManager::save` performs a single direct `fs::write`
of the new envelope to the vault path — no temporary file and no rename — so
the claimed write-to-temporary-then-atomic-replace discipline does not hold,
and a write failure after a successful encryption step can leave the previous
on-disk file overwritten or truncated. -/
theorem C3_save_direct_write (v : Vault) (key salt nonce : List Nat) (path : String) :
    saveOps v key salt nonce path = [.write path (saveBytes v key salt nonce)] ∧
    ¬ atomicReplace (saveOps v key salt nonce path) path :=
  ⟨rfl, fun h =>
    h (.write path (saveBytes v key salt nonce)) (List.mem_singleton.mpr rfl) rfl⟩

/-- Counterexample to C3 as stated: at a concrete vault, key, salt, nonce and
path, the save trace is a direct write to the vault path, violating the
atomic-replace discipline; a failure after 0 bytes leaves the file empty,
destroying the previous content. -/
theorem C3_counterexample :
    ¬ atomicReplace
        (saveOps Vault.new (List.range 32) (List.range 32) (List.range 12) "vault.enc")
        "vault.enc" ∧
    diskAfterFailedWrite
        (saveBytes Vault.new (List.range 32) (List.range 32) (List.range 12)) 0 = [] :=
  ⟨fun h => h (.write "vault.enc"
      (saveBytes Vault.new (List.range 32) (List.range 32) (List.range 12)))
      (List.mem_singleton.mpr rfl) rfl,
   rfl⟩

/-- C9.  For every valid base32 secret, `verify_totp` succeeds exactly when
the code is string-equal to the freshly recomputed current 6-digit code — no
look-ahead or look-behind window exists in the computation — and consequently
`verify_totp(secret, generate_totp(secret))` is true whenever the two calls'
timestamps fall in the same 30-second step. -/
theorem C9_verify_totp_exact (secret code : String) (bytes : List Nat) (t1 t2 : Nat)
    (hdec : decodeBase32 secret = .ok bytes) (hstep : t1 / 30 = t2 / 30) :
    verifyTotp secret code t2 = .ok (totpCustom 30 6 bytes t2 == code) ∧
    (∀ c, generateTotp secret t1 = .ok c → verifyTotp secret c t2 = .ok true) := by
  constructor
  · simp only [verifyTotp, generateTotp, hdec]
  · intro c hc
    simp only [generateTotp, hdec] at hc
    injection hc with hcv
    subst hcv
    simp only [verifyTotp, generateTotp, hdec]
    have hsame : totpCustom 30 6 bytes t1 = totpCustom 30 6 bytes t2 := by
      simp only [totpCustom]
      rw [hstep]
    rw [hsame]
    simp

set_option maxRecDepth 100000 in
/-- Witness for C9 at the concrete secret `"AA"` (which decodes to the single
byte 0) and timestamps 31 and 59, both in time step 1. -/
theorem C9_witness :
    decodeBase32 "AA" = .ok [0] ∧ (31 : Nat) / 30 = 59 / 30 ∧
    verifyTotp "AA" (totpCustom 30 6 [0] 31) 59 = .ok true := by
  refine ⟨by decide, by decide, ?_⟩
  refine (C9_verify_totp_exact "AA" (totpCustom 30 6 [0] 31) [0] 31 59
    (by decide) (by decide)).2 (totpCustom 30 6 [0] 31) ?_
  simp only [generateTotp, (by decide : decodeBase32 "AA" = Except.ok [0])]

end PasswordManager
